import Mathlib

/-!
Verification of the CaptionTrans service core (`app.py`).

The development shallowly embeds the two pieces of the repository with
testable semantics:

* the SRT formatter (`format_timestamp`, `build_srt_from_segments`), and
* the upload handler (`save_upload_to_temp`) together with the
  `/transcribe` request handler.

Python strings are modelled as `List Char`.  Python `float` seconds are
modelled as exact rationals `ℚ`; Python `round` (round-half-to-even) is
modelled by `roundHalfEven`, computed on the numerator/denominator pair so
that every definition evaluates inside the kernel.  Whitespace for
`str.strip` is modelled as the ASCII whitespace characters recognised by
`Char.isWhitespace`; every string appearing in the source and in the
specification examples is ASCII, so this coincides with Python on all the
inputs considered here.
-/

namespace CaptionTrans

/-! ### Decimal rendering, modelling Python f-string formatting -/

/-- Character for a single decimal digit, `digit d = '0' + d` for `d < 10`. -/
def digit (d : Nat) : Char := Char.ofNat (48 + d)

/-- Fuel-indexed decimal rendering; the fuel only bounds the recursion depth
so that the definition is structural (hence kernel-evaluable). -/
def natToCharsAux : Nat → Nat → List Char
  | 0, _ => []
  | fuel + 1, n =>
    if n < 10 then [digit n]
    else natToCharsAux fuel (n / 10) ++ [digit (n % 10)]

/-- Decimal rendering of a natural number, as produced by Python `str`/
f-string formatting of a non-negative int. -/
def natToChars (n : Nat) : List Char := natToCharsAux (n + 1) n

/-- Zero-padding to (at least) two digits, modelling Python `f"{n:02}"`. -/
def pad2 (n : Nat) : List Char :=
  if n < 10 then '0' :: natToChars n else natToChars n

/-- Zero-padding to (at least) three digits, modelling Python `f"{n:03}"`. -/
def pad3 (n : Nat) : List Char :=
  if n < 10 then '0' :: '0' :: natToChars n
  else if n < 100 then '0' :: natToChars n
  else natToChars n

/-! ### Python string operations on `List Char` -/

/-- Test whether a character list begins with the three characters `-->`. -/
def startsArrow : List Char → Bool
  | c1 :: c2 :: c3 :: _ => c1 = '-' && c2 = '-' && c3 = '>'
  | _ => false

/-- Left-to-right replacement of every (non-overlapping) occurrence of the
token `-->` by the single character `→`, modelling the Python expression
`text.replace("-->", "→")` from `build_srt_from_segments`. -/
def replaceArrows : List Char → List Char
  | [] => []
  | [c] => [c]
  | [c1, c2] => [c1, c2]
  | c1 :: c2 :: c3 :: rest =>
    if c1 = '-' ∧ c2 = '-' ∧ c3 = '>' then '→' :: replaceArrows rest
    else c1 :: replaceArrows (c2 :: c3 :: rest)

/-- Number of positions at which the substring `-->` occurs.  Since `-->`
cannot overlap itself, this is the usual substring-occurrence count. -/
def countArrow : List Char → Nat
  | [] => 0
  | c :: rest => (if startsArrow (c :: rest) then 1 else 0) + countArrow rest

/-- Drop leading ASCII whitespace. -/
def dropLeadingWs (s : List Char) : List Char := s.dropWhile Char.isWhitespace

/-- Drop trailing ASCII whitespace. -/
def stripTrailing (s : List Char) : List Char :=
  (s.reverse.dropWhile Char.isWhitespace).reverse

/-- Python `str.strip()`: remove leading and trailing whitespace. -/
def pyStrip (s : List Char) : List Char := stripTrailing (dropLeadingWs s)

/-- Python `"\n".join(chunks)`. -/
def joinChunks : List (List Char) → List Char
  | [] => []
  | [x] => x
  | x :: xs => x ++ '\n' :: joinChunks xs

/-! ### Timestamp formatting (`format_timestamp`, app.py lines 31-39) -/

/-- Round `num / den` (for `den > 0`) to the nearest integer, ties going to
the even neighbour.  This is Python's `round` on the exact rational value;
the result depends only on the value `num / den`, not on the chosen
representation. -/
def roundHalfEven (num den : ℤ) : ℤ :=
  let f := Int.fdiv num den
  let twice := 2 * (num - f * den)
  if twice < den then f
  else if den < twice then f + 1
  else if f % 2 = 0 then f else f + 1

/-- The clamp `if seconds < 0: seconds = 0` at the top of `format_timestamp`. -/
def clampSec (q : ℚ) : ℚ := if q < 0 then 0 else q

/-- Total milliseconds `int(round(seconds * 1000))` after clamping; the
multiplication by 1000 is performed exactly on the numerator. -/
def tsMillis (q : ℚ) : ℕ :=
  (roundHalfEven ((clampSec q).num * 1000) ((clampSec q).den : ℤ)).toNat

/-- Hours field: `divmod(milliseconds, 3_600_000)` quotient. -/
def tsHours (q : ℚ) : ℕ := tsMillis q / 3600000

/-- Minutes field: quotient of the first remainder by `60_000`. -/
def tsMinutes (q : ℚ) : ℕ := tsMillis q % 3600000 / 60000

/-- Seconds field: quotient of the second remainder by `1000`. -/
def tsSeconds (q : ℚ) : ℕ := tsMillis q % 3600000 % 60000 / 1000

/-- Milliseconds field: the final remainder. -/
def tsMsField (q : ℚ) : ℕ := tsMillis q % 3600000 % 60000 % 1000

/-- Model of `format_timestamp` (app.py lines 31-39): clamp negatives to
zero, convert to milliseconds, split by `divmod`, zero-pad and join as
`HH:MM:SS,mmm`. -/
def format_timestamp (q : ℚ) : List Char :=
  pad2 (tsHours q) ++ ':' :: pad2 (tsMinutes q) ++ ':' ::
    pad2 (tsSeconds q) ++ ',' :: pad3 (tsMsField q)

/-! ### Segments and SRT building (`build_srt_from_segments`, app.py 42-59) -/

/-- A Whisper verbose-JSON segment, modelling the Python dict consumed by
`build_srt_from_segments`: each of the keys `"start"`, `"end"`, `"text"`
may be absent.  The field `stop` models the dict key `"end"` (`end` is a
Lean keyword). -/
structure Segment where
  start : Option ℚ
  stop : Option ℚ
  text : Option (List Char)
deriving DecidableEq

/-- Python `segment.get("start", 0.0)`. -/
def segStartRaw (seg : Segment) : ℚ := seg.start.getD 0

/-- Python `segment.get("end", start_raw)`. -/
def segEndRaw (seg : Segment) : ℚ := seg.stop.getD (segStartRaw seg)

/-- Python `str(text_raw).replace("-->", "→").strip()` with the dict
default `segment.get("text", "")`. -/
def segText (seg : Segment) : List Char :=
  pyStrip (replaceArrows (seg.text.getD []))

/-- One subtitle block `f"{idx}\n{start_ts} --> {end_ts}\n{text}\n"`. -/
def segBlock (idx : Nat) (seg : Segment) : List Char :=
  natToChars idx ++ '\n' ::
    (format_timestamp (segStartRaw seg) ++ ' ' :: '-' :: '-' :: '>' :: ' ' ::
      (format_timestamp (segEndRaw seg) ++ '\n' :: (segText seg ++ ['\n'])))

/-- The list `srt_lines` built by `enumerate(segments, start=1)`. -/
def blocksFrom : Nat → List Segment → List (List Char)
  | _, [] => []
  | idx, seg :: rest => segBlock idx seg :: blocksFrom (idx + 1) rest

/-- Model of `build_srt_from_segments` (app.py lines 42-59):
`"" if not segments else "\n".join(srt_lines).strip() + "\n"`. -/
def build_srt_from_segments (segments : List Segment) : List Char :=
  if segments = [] then []
  else pyStrip (joinChunks (blocksFrom 1 segments)) ++ ['\n']

/-! ### Raw segment normalisation (`_prepare_segments`, app.py 1328-1341) -/

/-- Input to `_prepare_segments`: each item is either a mapping (kept as
is) or an object whose `start`/`end`/`text` attributes are read with
`getattr` defaults. -/
inductive RawSegment where
  | dict (seg : Segment)
  | obj (start : Option ℚ) (stop : Option ℚ) (text : Option (List Char))
deriving DecidableEq

/-- Model of `_prepare_segments`: mappings pass through unchanged, attribute
objects are normalised with `getattr(item, "start", 0.0)`,
`getattr(item, "end", getattr(item, "start", 0.0))`, `getattr(item, "text", "")`. -/
def prepare_segments : List RawSegment → List Segment
  | [] => []
  | .dict seg :: rest => seg :: prepare_segments rest
  | .obj st sp tx :: rest =>
    ⟨some (st.getD 0), some (sp.getD (st.getD 0)), some (tx.getD [])⟩ ::
      prepare_segments rest

/-! ### Upload storage (`save_upload_to_temp`, app.py 1293-1325) -/

/-- One interaction of the read loop with the upload stream: either a chunk
of bytes is returned (an empty chunk signals end of stream, ending the
loop), or the read raises an I/O error. -/
inductive ReadEvent where
  | chunk (data : List Nat)
  | ioError
deriving DecidableEq

/-- Errors of the upload/transcription core, with the HTTP status each is
surfaced as in `app.py`. -/
inductive UploadError where
  | invalidInput      -- 400: missing filename / bad extension / bad language hint
  | payloadTooLarge   -- 413
  | emptyUpload       -- 400
  | storageFailure    -- 500: I/O error while storing the upload
  | collaboratorError -- 500: OpenAIError from the transcription client
  | missingSegments   -- 500: verbose response without segments
  | unexpectedError   -- 500: any other exception
deriving DecidableEq

deriving instance DecidableEq for Except

/-- The `while True` read loop of `save_upload_to_temp`: accumulate chunk
sizes, abort with 413 as soon as the running total exceeds `maxBytes`,
stop at an empty chunk or end of stream.  Returns the total byte count and
the bytes written to the temp file. -/
def readLoop (maxBytes : Nat) : List ReadEvent → Nat → List Nat →
    Except UploadError (Nat × List Nat)
  | [], total, acc => .ok (total, acc)
  | .ioError :: _, _, _ => .error .storageFailure
  | .chunk [] :: _, total, acc => .ok (total, acc)
  | .chunk c :: rest, total, acc =>
    if total + c.length > maxBytes then .error .payloadTooLarge
    else readLoop maxBytes rest (total + c.length) (acc ++ c)

/-- Outcome of `save_upload_to_temp`: on success the temp file remains on
disk holding the written bytes; on any error the temp file has been
unlinked before the exception propagates. -/
structure SaveResult where
  result : Except UploadError (List Nat)
  tempFileRemains : Bool
deriving DecidableEq

/-- Model of `save_upload_to_temp` (app.py 1293-1325): run the read loop;
any loop error unlinks the temp file and re-raises; a zero-byte total
unlinks the temp file and raises 400 `emptyUpload`; otherwise the path to
the fully written temp file is returned. -/
def save_upload_to_temp (events : List ReadEvent) (maxBytes : Nat) : SaveResult :=
  match readLoop maxBytes events 0 [] with
  | .error e => ⟨.error e, false⟩
  | .ok (total, content) =>
    if total = 0 then ⟨.error .emptyUpload, false⟩
    else ⟨.ok content, true⟩

/-- Total bytes delivered by the stream before its terminator (first empty
chunk, first I/O error, or end of stream). -/
def readBytes : List ReadEvent → List Nat
  | [] => []
  | .ioError :: _ => []
  | .chunk [] :: _ => []
  | .chunk c :: rest => c ++ readBytes rest

/-- Whether the stream delivers no I/O error before its terminator. -/
def cleanUpTo : List ReadEvent → Bool
  | [] => true
  | .ioError :: _ => false
  | .chunk [] :: _ => true
  | .chunk _ :: rest => cleanUpTo rest

/-- Success test for the result of the upload handler. -/
def isOkResult : Except UploadError (List Nat) → Bool
  | .ok _ => true
  | .error _ => false

/-! ### The `/transcribe` handler (app.py 1350-1423) -/

/-- Final path component, modelling `pathlib.PurePath.name` (the part of
the filename after the last `/`; trailing separators are not normalised). -/
def pathName (p : List Char) : List Char :=
  p.foldl (fun acc c => if c = '/' then [] else acc ++ [c]) []

/-- Extension of a path, modelling `pathlib.PurePath.suffix`: the part of
the final component from its last dot on, empty when the last dot is the
first or the last character of the component. -/
def pathSuffix (p : List Char) : List Char :=
  let name := pathName p
  match name.reverse with
  | [] => []
  | c :: _ =>
    if c = '.' then []
    else
      let r := name.reverse
      let a := r.takeWhile (fun x => x ≠ '.')
      if a.length = r.length then []
      else if a.length = r.length - 1 then []
      else '.' :: a.reverse

/-- The allow-list `ALLOWED_EXTS = {".mp3", ".wav", ".m4a", ".mp4", ".mkv"}`. -/
def ALLOWED_EXTS : List (List Char) :=
  [(".mp3").data, (".wav").data, (".m4a").data, (".mp4").data, (".mkv").data]

/-- Validation of the optional language hint (app.py 1368-1372): `None` or
a hint that strips to the empty string is accepted (skipped); otherwise the
lower-cased stripped hint must be exactly two ASCII letters. -/
def langHintMalformed (hint : Option (List Char)) : Bool :=
  match hint with
  | none => false
  | some h =>
    let language := pyStrip h
    if language = [] then false
    else
      let lower := language.map Char.toLower
      ¬(lower.length = 2 ∧ lower.all Char.isAlpha)

/-- Outcome of the call to the transcription collaborator, treated as an
opaque dependency: with `response_format="srt"` a successful call returns
the subtitle string (`srt`); with `"verbose_json"` it returns either a
segment list (`segs`) or a response without segments (`noSegments`); the
client may raise `OpenAIError` (`apiError`) or any other exception
(`crash`). -/
inductive CollabOutcome where
  | srt (s : List Char)
  | segs (l : List RawSegment)
  | noSegments
  | apiError
  | crash
deriving DecidableEq

/-- Observable outcome of one `/transcribe` request: the HTTP-level result,
whether a temporary upload file was ever created, and whether it is still
on disk when the request completes. -/
structure TransResult where
  result : Except UploadError (List Char)
  tempCreated : Bool
  tempRemains : Bool
deriving DecidableEq

/-- Model of the `transcribe` handler (app.py 1350-1423), faithful to the
order of its steps: filename check, extension check, `save_upload_to_temp`,
language-hint validation (after the temp file exists and outside the
`try`/`finally` that deletes it), then the collaborator call inside
`try ... finally os.unlink(temp_path)`. -/
def transcribe (filename : Option (List Char)) (events : List ReadEvent)
    (language_hint : Option (List Char)) (collab : CollabOutcome)
    (maxBytes : Nat) : TransResult :=
  match filename with
  | none => ⟨.error .invalidInput, false, false⟩
  | some fname =>
    if fname = [] then ⟨.error .invalidInput, false, false⟩
    else if (pathSuffix fname).map Char.toLower ∉ ALLOWED_EXTS then
      ⟨.error .invalidInput, false, false⟩
    else
      match (save_upload_to_temp events maxBytes).result with
      | .error e => ⟨.error e, true, false⟩
      | .ok _ =>
        if langHintMalformed language_hint then
          ⟨.error .invalidInput, true, true⟩
        else
          match collab with
          | .srt s => ⟨.ok s, true, false⟩
          | .segs l => ⟨.ok (build_srt_from_segments (prepare_segments l)), true, false⟩
          | .noSegments => ⟨.error .missingSegments, true, false⟩
          | .apiError => ⟨.error .collaboratorError, true, false⟩
          | .crash => ⟨.error .unexpectedError, true, false⟩

/-! ### Specification-side definitions (for refinement claims) -/

/-- Timestamp formatter as worded by the specification, for non-negative
input: total milliseconds `round(seconds * 1000)`, then the `divmod`
chain by 3 600 000 / 60 000 / 1000, each field zero-padded and joined as
`HH:MM:SS,mmm`. -/
def format_timestamp_spec (q : ℚ) : List Char :=
  let ms := (roundHalfEven (q.num * 1000) (q.den : ℤ)).toNat
  let hours := ms / 3600000
  let rem1 := ms % 3600000
  let minutes := rem1 / 60000
  let rem2 := rem1 % 60000
  let secs := rem2 / 1000
  let msf := rem2 % 1000
  pad2 hours ++ ':' :: pad2 minutes ++ ':' :: pad2 secs ++ ',' :: pad3 msf

/-- SRT builder as worded by the specification for non-empty input: the
blocks are joined with a blank line between them, trailing whitespace of
the joined blocks is stripped, and a single line terminator is appended. -/
def buildSrt_spec (segments : List Segment) : List Char :=
  stripTrailing (joinChunks (blocksFrom 1 segments)) ++ ['\n']

/-! ### Lemmas about decimal rendering -/

theorem natToCharsAux_congr :
    ∀ n f₁ f₂ : Nat, n < f₁ → n < f₂ → natToCharsAux f₁ n = natToCharsAux f₂ n := by
  intro n
  induction n using Nat.strong_induction_on with
  | _ n ih =>
    intro f₁ f₂ h₁ h₂
    match f₁, f₂ with
    | g₁ + 1, g₂ + 1 =>
      by_cases h10 : n < 10
      · simp [natToCharsAux, h10]
      · simp only [natToCharsAux, if_neg h10]
        have hlt : n / 10 < n := Nat.div_lt_self (by omega) (by omega)
        rw [ih (n / 10) hlt g₁ g₂ (by omega) (by omega)]

theorem natToChars_lt10 {n : Nat} (h : n < 10) : natToChars n = [digit n] := by
  simp [natToChars, natToCharsAux, h]

theorem natToChars_ge10 {n : Nat} (h : 10 ≤ n) :
    natToChars n = natToChars (n / 10) ++ [digit (n % 10)] := by
  have hlt : n / 10 < n := Nat.div_lt_self (by omega) (by omega)
  show natToCharsAux (n + 1) n = _
  simp only [natToCharsAux, if_neg (by omega : ¬n < 10)]
  rw [natToCharsAux_congr (n / 10) n (n / 10 + 1) (by omega) (by omega)]
  rfl

theorem natToChars_length_pos (n : Nat) : 0 < (natToChars n).length := by
  by_cases h : n < 10
  · simp [natToChars_lt10 h]
  · rw [natToChars_ge10 (by omega)]
    simp

theorem natToChars_length_one {n : Nat} (h : n < 10) : (natToChars n).length = 1 := by
  simp [natToChars_lt10 h]

theorem natToChars_length_two {n : Nat} (h1 : 10 ≤ n) (h2 : n < 100) :
    (natToChars n).length = 2 := by
  rw [natToChars_ge10 h1]
  simp [natToChars_length_one (show n / 10 < 10 by omega)]

theorem three_le_natToChars_length {n : Nat} (h : 100 ≤ n) :
    3 ≤ (natToChars n).length := by
  rw [natToChars_ge10 (by omega), natToChars_ge10 (show 10 ≤ n / 10 by omega)]
  have := natToChars_length_pos (n / 10 / 10)
  simp
  omega

theorem pad2_length {n : Nat} (h : n < 100) : (pad2 n).length = 2 := by
  unfold pad2
  split
  · simp [natToChars_length_one (by assumption)]
  · exact natToChars_length_two (by omega) h

theorem three_le_pad2_length {n : Nat} (h : 100 ≤ n) : 3 ≤ (pad2 n).length := by
  unfold pad2
  rw [if_neg (by omega)]
  exact three_le_natToChars_length h

theorem pad3_length {n : Nat} (h : n < 1000) : (pad3 n).length = 3 := by
  unfold pad3
  by_cases h10 : n < 10
  · simp [h10, natToChars_length_one h10]
  · rw [if_neg h10]
    by_cases h100 : n < 100
    · rw [if_pos h100]
      simp [natToChars_length_two (by omega) h100]
    · rw [if_neg h100, natToChars_ge10 (show 10 ≤ n by omega)]
      simp [natToChars_length_two (show 10 ≤ n / 10 by omega) (show n / 10 < 100 by omega)]

/-! ### Lemmas about timestamp fields -/

theorem roundHalfEven_ge_fdiv (num den : ℤ) :
    Int.fdiv num den ≤ roundHalfEven num den := by
  unfold roundHalfEven
  dsimp only
  split
  · exact le_refl _
  · split
    · omega
    · split <;> omega

theorem clampSec_of_nonneg {q : ℚ} (h : 0 ≤ q) : clampSec q = q := by
  simp [clampSec, not_lt.mpr h]

theorem clampSec_of_neg {q : ℚ} (h : q < 0) : clampSec q = 0 := by
  simp [clampSec, h]

theorem tsMillis_neg {q : ℚ} (h : q < 0) : tsMillis q = 0 := by
  rw [tsMillis, clampSec_of_neg h]
  decide

theorem tsMillis_ge {q : ℚ} (h : (360000 : ℚ) ≤ q) : 360000000 ≤ tsMillis q := by
  have h0 : (0 : ℚ) ≤ q := le_trans (by decide) h
  rw [tsMillis, clampSec_of_nonneg h0]
  have hnum : (360000 : ℤ) * (q.den : ℤ) ≤ q.num := by
    have := Rat.le_def.mp h
    simpa using this
  have hden : (0 : ℤ) < (q.den : ℤ) := by exact_mod_cast q.pos
  have hf : (360000000 : ℤ) ≤ Int.fdiv (q.num * 1000) (q.den : ℤ) := by
    rw [Int.fdiv_eq_ediv _ (le_of_lt hden)]
    rw [Int.le_ediv_iff_mul_le hden]
    nlinarith
  have := roundHalfEven_ge_fdiv (q.num * 1000) (q.den : ℤ)
  omega

theorem tsMinutes_le (q : ℚ) : tsMinutes q ≤ 59 := by
  rw [tsMinutes]
  omega

theorem tsSeconds_le (q : ℚ) : tsSeconds q ≤ 59 := by
  rw [tsSeconds]
  omega

theorem tsMsField_le (q : ℚ) : tsMsField q ≤ 999 := by
  rw [tsMsField]
  omega

/-! ### Lemmas about SRT building -/

theorem joinChunks_cons (x : List Char) (xs : List (List Char)) :
    ∃ t, joinChunks (x :: xs) = x ++ t := by
  cases xs with
  | nil => exact ⟨[], by simp [joinChunks]⟩
  | cons y ys => exact ⟨'\n' :: joinChunks (y :: ys), rfl⟩

theorem segBlock_one_head (seg : Segment) :
    ∃ u, segBlock 1 seg = '1' :: u :=
  ⟨'\n' :: (format_timestamp (segStartRaw seg) ++ ' ' :: '-' :: '-' :: '>' :: ' ' ::
      (format_timestamp (segEndRaw seg) ++ '\n' :: (segText seg ++ ['\n']))), rfl⟩

theorem joined_blocks_head (seg : Segment) (rest : List Segment) :
    ∃ u, joinChunks (blocksFrom 1 (seg :: rest)) = '1' :: u := by
  obtain ⟨t, ht⟩ := joinChunks_cons (segBlock 1 seg) (blocksFrom 2 rest)
  obtain ⟨v, hv⟩ := segBlock_one_head seg
  exact ⟨v ++ t, by rw [blocksFrom, ht, hv]; simp⟩

theorem dropLeadingWs_one (u : List Char) : dropLeadingWs ('1' :: u) = '1' :: u := by
  simp [dropLeadingWs, List.dropWhile_cons]

/-! ### Claim theorems -/

/-- C7: `build_srt_from_segments` applied to the empty segment list returns
the empty string — literally empty, not a lone line terminator. -/
theorem C7_build_srt_empty : build_srt_from_segments [] = [] := rfl

/-- C8: `build_srt_from_segments` is deterministic — it depends on nothing
but its argument (it is a pure function in this embedding), so any two
applications to the same segment list yield byte-identical output. -/
theorem C8_build_srt_deterministic :
    ∀ s₁ s₂ : List Segment, s₁ = s₂ →
      build_srt_from_segments s₁ = build_srt_from_segments s₂ := by
  intro s₁ s₂ h
  rw [h]

/-- Witness for C8 at a concrete segment list. -/
theorem C8_build_srt_deterministic_witness :
    build_srt_from_segments [⟨some 0, some 1, some (("hi").data)⟩] =
      build_srt_from_segments [⟨some 0, some 1, some (("hi").data)⟩] :=
  C8_build_srt_deterministic _ _ rfl

/-- C6: a segment lacking an `end` value yields an emitted end timestamp
equal to the emitted start timestamp (a degenerate zero-duration cue), and
a segment lacking a `text` value is treated as having empty text; neither
case is an error. -/
theorem C6_segment_defaults :
    ∀ seg : Segment,
      (seg.stop = none →
        format_timestamp (segEndRaw seg) = format_timestamp (segStartRaw seg)) ∧
      (seg.text = none → segText seg = []) := by
  intro seg
  constructor
  · intro h
    rw [segEndRaw, h]
    rfl
  · intro h
    rw [segText, h]
    rfl

/-- Witness for C6 at a concrete segment with both fields missing. -/
theorem C6_segment_defaults_witness :
    format_timestamp (segEndRaw ⟨some 1, none, none⟩) =
        format_timestamp (segStartRaw ⟨some 1, none, none⟩) ∧
      segText ⟨some 1, none, none⟩ = [] :=
  ⟨(C6_segment_defaults ⟨some 1, none, none⟩).1 rfl,
   (C6_segment_defaults ⟨some 1, none, none⟩).2 rfl⟩

/-- C3: `format_timestamp` clamps negative input to zero, computes exactly
the rounded-millisecond `divmod` chain of the specification for
non-negative input, and satisfies the two pinned examples
`format_timestamp 3661.005 = "01:01:01,005"` and
`format_timestamp (-5) = "00:00:00,000"`. -/
theorem C3_format_timestamp_exact :
    (∀ q : ℚ, q < 0 → format_timestamp q = ("00:00:00,000").data) ∧
    (∀ q : ℚ, 0 ≤ q → format_timestamp q = format_timestamp_spec q) ∧
    format_timestamp (Rat.divInt 3661005 1000) = ("01:01:01,005").data ∧
    format_timestamp (-5) = ("00:00:00,000").data := by
  refine ⟨?_, ?_, by decide, by decide⟩
  · intro q h
    have hm : tsMillis q = 0 := tsMillis_neg h
    simp [format_timestamp, tsHours, tsMinutes, tsSeconds, tsMsField, hm]
    decide
  · intro q h
    simp [format_timestamp, format_timestamp_spec, tsHours, tsMinutes,
      tsSeconds, tsMsField, tsMillis, clampSec_of_nonneg h]

/-- Witness for C3 at the concrete inputs `-3` and `3/2`. -/
theorem C3_format_timestamp_exact_witness :
    format_timestamp (-3 : ℚ) = ("00:00:00,000").data ∧
      format_timestamp (Rat.divInt 3 2) = format_timestamp_spec (Rat.divInt 3 2) :=
  ⟨C3_format_timestamp_exact.1 (-3 : ℚ) (by decide),
   C3_format_timestamp_exact.2.1 (Rat.divInt 3 2) (by decide)⟩

/-- C10: the minutes and seconds fields of `format_timestamp` are at most
59 and the milliseconds field is at most 999, while the hours field is not
truncated: any input of at least 360000 seconds (100 hours) produces an
output strictly longer than the 12-character `HH:MM:SS,mmm` shape. -/
theorem C10_fields_bounded_hours_unbounded :
    (∀ q : ℚ, tsMinutes q ≤ 59 ∧ tsSeconds q ≤ 59 ∧ tsMsField q ≤ 999) ∧
    (∀ q : ℚ, (360000 : ℚ) ≤ q → 12 < (format_timestamp q).length) := by
  constructor
  · intro q
    exact ⟨tsMinutes_le q, tsSeconds_le q, tsMsField_le q⟩
  · intro q h
    have hms : 360000000 ≤ tsMillis q := tsMillis_ge h
    have hh : 100 ≤ tsHours q := by
      rw [tsHours]
      omega
    have h1 : 3 ≤ (pad2 (tsHours q)).length := three_le_pad2_length hh
    have h2 : (pad2 (tsMinutes q)).length = 2 := pad2_length (by
      have := tsMinutes_le q
      omega)
    have h3 : (pad2 (tsSeconds q)).length = 2 := pad2_length (by
      have := tsSeconds_le q
      omega)
    have h4 : (pad3 (tsMsField q)).length = 3 := pad3_length (by
      have := tsMsField_le q
      omega)
    simp [format_timestamp]
    omega

/-- Witness for C10 at the concrete input 360000 seconds. -/
theorem C10_fields_bounded_hours_unbounded_witness :
    12 < (format_timestamp (360000 : ℚ)).length :=
  C10_fields_bounded_hours_unbounded.2 (360000 : ℚ) (by decide)

/-- C2: on every non-empty segment list, `build_srt_from_segments` produces
exactly the specification's output — the 1-indexed blocks joined with a
blank line between them, trailing whitespace stripped and a single line
terminator appended — and on the pinned two-segment example it produces
exactly the pinned SRT string (with `-->` inside text replaced by `→`). -/
theorem C2_build_srt_matches_spec :
    (∀ segments : List Segment, segments ≠ [] →
      build_srt_from_segments segments = buildSrt_spec segments) ∧
    build_srt_from_segments
        [⟨some 0, some (Rat.divInt 3 2), some (("Hello --> world").data)⟩,
         ⟨some (Rat.divInt 3 2), some 3, some (("Second line").data)⟩] =
      ("1\n00:00:00,000 --> 00:00:01,500\nHello → world\n\n2\n00:00:01,500 --> 00:00:03,000\nSecond line\n").data := by
  constructor
  · intro segments hne
    match segments with
    | seg :: rest =>
      obtain ⟨u, hu⟩ := joined_blocks_head seg rest
      rw [build_srt_from_segments, if_neg (by simp), buildSrt_spec, pyStrip, hu,
        dropLeadingWs_one]
  · decide

/-- Witness for C2 at the pinned two-segment example list. -/
theorem C2_build_srt_matches_spec_witness :
    build_srt_from_segments
        [⟨some 0, some (Rat.divInt 3 2), some (("Hello --> world").data)⟩,
         ⟨some (Rat.divInt 3 2), some 3, some (("Second line").data)⟩] =
      buildSrt_spec
        [⟨some 0, some (Rat.divInt 3 2), some (("Hello --> world").data)⟩,
         ⟨some (Rat.divInt 3 2), some 3, some (("Second line").data)⟩] :=
  C2_build_srt_matches_spec.1 _ (by decide)

/-! ### Lemmas about the upload read loop -/

theorem readLoop_chunk_cons (maxBytes b : Nat) (bs : List Nat)
    (rest : List ReadEvent) (total : Nat) (acc : List Nat) :
    readLoop maxBytes (.chunk (b :: bs) :: rest) total acc =
      if total + (b :: bs).length > maxBytes then .error .payloadTooLarge
      else readLoop maxBytes rest (total + (b :: bs).length) (acc ++ (b :: bs)) := rfl

theorem save_eq_of_loop_ok {events : List ReadEvent} {maxBytes total : Nat}
    {content : List Nat}
    (h : readLoop maxBytes events 0 [] = .ok (total, content)) :
    save_upload_to_temp events maxBytes =
      if total = 0 then ⟨.error .emptyUpload, false⟩ else ⟨.ok content, true⟩ := by
  rw [save_upload_to_temp, h]

theorem save_eq_of_loop_error {events : List ReadEvent} {maxBytes : Nat}
    {e : UploadError}
    (h : readLoop maxBytes events 0 [] = .error e) :
    save_upload_to_temp events maxBytes = ⟨.error e, false⟩ := by
  rw [save_upload_to_temp, h]

theorem readLoop_spec (maxBytes : Nat) :
    ∀ (events : List ReadEvent) (total : Nat) (acc : List Nat),
      cleanUpTo events = true → total ≤ maxBytes →
      (total + (readBytes events).length ≤ maxBytes →
        readLoop maxBytes events total acc =
          .ok (total + (readBytes events).length, acc ++ readBytes events)) ∧
      (maxBytes < total + (readBytes events).length →
        readLoop maxBytes events total acc = .error .payloadTooLarge) := by
  intro events
  induction events with
  | nil =>
    intro total acc _ hle
    refine ⟨fun _ => by simp [readLoop, readBytes], fun h => ?_⟩
    simp [readBytes] at h
    omega
  | cons e rest ih =>
    cases e with
    | ioError =>
      intro total acc hclean hle
      simp [cleanUpTo] at hclean
    | chunk c =>
      cases c with
      | nil =>
        intro total acc _ hle
        refine ⟨fun _ => by simp [readLoop, readBytes], fun h => ?_⟩
        simp [readBytes] at h
        omega
      | cons b bs =>
        intro total acc hclean hle
        have hclean' : cleanUpTo rest = true := by
          simpa [cleanUpTo] using hclean
        have hrb : readBytes (.chunk (b :: bs) :: rest) = (b :: bs) ++ readBytes rest := rfl
        constructor
        · intro h
          rw [hrb] at h ⊢
          simp only [List.length_append] at h
          rw [readLoop_chunk_cons, if_neg (by omega)]
          rw [(ih (total + (b :: bs).length) (acc ++ (b :: bs)) hclean' (by omega)).1
            (by omega)]
          simp [List.append_assoc, Nat.add_assoc]
          omega
        · intro h
          rw [hrb] at h
          simp only [List.length_append] at h
          rw [readLoop_chunk_cons]
          by_cases hov : total + (b :: bs).length > maxBytes
          · rw [if_pos hov]
          · rw [if_neg hov]
            exact (ih (total + (b :: bs).length) (acc ++ (b :: bs)) hclean'
              (by omega)).2 (by omega)

theorem readLoop_dirty (maxBytes : Nat) :
    ∀ (events : List ReadEvent) (total : Nat) (acc : List Nat),
      cleanUpTo events = false →
      ∃ e, readLoop maxBytes events total acc = .error e := by
  intro events
  induction events with
  | nil => intro total acc h; simp [cleanUpTo] at h
  | cons e rest ih =>
    cases e with
    | ioError => intro total acc _; exact ⟨.storageFailure, rfl⟩
    | chunk c =>
      cases c with
      | nil => intro total acc h; simp [cleanUpTo] at h
      | cons b bs =>
        intro total acc h
        have h' : cleanUpTo rest = false := by simpa [cleanUpTo] using h
        rw [readLoop_chunk_cons]
        by_cases hov : total + (b :: bs).length > maxBytes
        · exact ⟨.payloadTooLarge, by rw [if_pos hov]⟩
        · obtain ⟨e, he⟩ := ih (total + (b :: bs).length) (acc ++ (b :: bs)) h'
          exact ⟨e, by rw [if_neg hov]; exact he⟩

/-- C4: storing an upload succeeds exactly when the stream is clean and
the total bytes read lie in `(0, maxBytes]`; a clean stream of exactly
`maxBytes` bytes succeeds with the fully written content, one of
`maxBytes + 1` bytes fails with 413 `payloadTooLarge`, a clean zero-byte
stream fails with 400 `emptyUpload`, and on every failure the temp file
has been deleted before the error propagates. -/
theorem C4_save_upload_boundary :
    ∀ (events : List ReadEvent) (maxBytes : Nat),
      (isOkResult (save_upload_to_temp events maxBytes).result = true ↔
        cleanUpTo events = true ∧ 0 < (readBytes events).length ∧
          (readBytes events).length ≤ maxBytes) ∧
      (cleanUpTo events = true → 0 < (readBytes events).length →
        (readBytes events).length ≤ maxBytes →
        save_upload_to_temp events maxBytes = ⟨.ok (readBytes events), true⟩) ∧
      (cleanUpTo events = true → (readBytes events).length = maxBytes + 1 →
        save_upload_to_temp events maxBytes = ⟨.error .payloadTooLarge, false⟩) ∧
      (cleanUpTo events = true → (readBytes events).length = 0 →
        save_upload_to_temp events maxBytes = ⟨.error .emptyUpload, false⟩) ∧
      (isOkResult (save_upload_to_temp events maxBytes).result = false →
        (save_upload_to_temp events maxBytes).tempFileRemains = false) := by
  intro events maxBytes
  have hok : cleanUpTo events = true → (readBytes events).length ≤ maxBytes →
      readLoop maxBytes events 0 [] =
        .ok ((readBytes events).length, readBytes events) := by
    intro hc hlen
    have := (readLoop_spec maxBytes events 0 [] hc (by omega)).1 (by omega)
    simpa using this
  have h413 : cleanUpTo events = true → maxBytes < (readBytes events).length →
      readLoop maxBytes events 0 [] = .error .payloadTooLarge := by
    intro hc hlen
    have := (readLoop_spec maxBytes events 0 [] hc (by omega)).2 (by omega)
    simpa using this
  refine ⟨?_, ?_, ?_, ?_, ?_⟩
  · constructor
    · intro h
      by_cases hc : cleanUpTo events = true
      · by_cases hlen : (readBytes events).length ≤ maxBytes
        · refine ⟨hc, ?_, hlen⟩
          by_contra hz
          have hz0 : (readBytes events).length = 0 := by omega
          rw [save_eq_of_loop_ok (hok hc hlen), if_pos hz0] at h
          simp [isOkResult] at h
        · exfalso
          rw [save_eq_of_loop_error (h413 hc (by omega))] at h
          simp [isOkResult] at h
      · exfalso
        obtain ⟨e, he⟩ := readLoop_dirty maxBytes events 0 []
          (by simpa using hc)
        rw [save_eq_of_loop_error he] at h
        simp [isOkResult] at h
    · rintro ⟨hc, hpos, hlen⟩
      rw [save_eq_of_loop_ok (hok hc hlen), if_neg (by omega)]
      rfl
  · intro hc hpos hlen
    rw [save_eq_of_loop_ok (hok hc hlen), if_neg (by omega)]
  · intro hc hlen
    rw [save_eq_of_loop_error (h413 hc (by omega))]
  · intro hc hlen
    rw [save_eq_of_loop_ok (hok hc (by omega)), if_pos hlen]
  · intro h
    rcases hloop : readLoop maxBytes events 0 [] with e | p
    · rw [save_eq_of_loop_error hloop]
    · rcases p with ⟨t, cont⟩
      rw [save_eq_of_loop_ok hloop] at h ⊢
      by_cases ht : t = 0
      · rw [if_pos ht]
      · rw [if_neg ht] at h
        simp [isOkResult] at h

/-- Witness for C4 at concrete streams: two bytes against a one-byte limit
give 413 with no temp file left, and a one-byte stream against the same
limit succeeds with the fully written content. -/
theorem C4_save_upload_boundary_witness :
    save_upload_to_temp [.chunk [7, 8]] 1 = ⟨.error .payloadTooLarge, false⟩ ∧
      save_upload_to_temp [.chunk [7]] 1 = ⟨.ok [7], true⟩ :=
  ⟨(C4_save_upload_boundary [.chunk [7, 8]] 1).2.2.1 (by decide) (by decide),
   (C4_save_upload_boundary [.chunk [7]] 1).2.1 (by decide) (by decide) (by decide)⟩

/-- C5: a missing or empty filename, or a filename whose (case-insensitively
compared) extension is not one of `.mp3`, `.wav`, `.m4a`, `.mp4`, `.mkv`,
is rejected with 400 `invalidInput` before any temporary file is created;
conversely a present filename with an allowed extension always reaches the
storage step, so a temporary file is created. -/
theorem C5_extension_gate :
    ∀ (filename : Option (List Char)) (events : List ReadEvent)
      (hint : Option (List Char)) (collab : CollabOutcome) (maxBytes : Nat),
      ((filename = none ∨ filename = some [] ∨
          (∀ f, filename = some f → (pathSuffix f).map Char.toLower ∉ ALLOWED_EXTS)) →
        transcribe filename events hint collab maxBytes =
          ⟨.error .invalidInput, false, false⟩) ∧
      (∀ f, filename = some f → f ≠ [] →
        (pathSuffix f).map Char.toLower ∈ ALLOWED_EXTS →
        (transcribe filename events hint collab maxBytes).tempCreated = true) := by
  intro filename events hint collab maxBytes
  constructor
  · intro h
    cases filename with
    | none => rfl
    | some f =>
      rcases h with h | h | h
      · exact absurd h (by simp)
      · rw [Option.some_inj] at h
        subst h
        simp [transcribe]
      · have hs := h f rfl
        by_cases hf : f = []
        · simp [transcribe, hf]
        · simp [transcribe, hf, hs]
  · intro f hf hne hmem
    subst hf
    simp only [transcribe]
    rw [if_neg hne, if_neg (by simpa using hmem)]
    rcases hres : (save_upload_to_temp events maxBytes).result with e | content
    · rfl
    · by_cases hl : langHintMalformed hint = true
      · simp [hl]
      · simp only [Bool.not_eq_true] at hl
        simp only [hl]
        cases collab <;> rfl

/-- Witness for C5 at a concrete request: `evil.txt` is rejected with 400
before a temp file exists, and `a.MP3` (case-insensitive match) reaches the
storage step. -/
theorem C5_extension_gate_witness :
    transcribe (some (("evil.txt").data)) [.chunk [0]] none .crash 100 =
        ⟨.error .invalidInput, false, false⟩ ∧
      (transcribe (some (("a.MP3").data)) [.chunk [0]] none .crash 100).tempCreated = true :=
  ⟨(C5_extension_gate (some (("evil.txt").data)) [.chunk [0]] none .crash 100).1
      (Or.inr (Or.inr (by decide))),
   (C5_extension_gate (some (("a.MP3").data)) [.chunk [0]] none .crash 100).2
      (("a.MP3").data) rfl (by decide) (by decide)⟩

/-- C1 contradiction: on a request whose upload is valid (so a temporary
file has been created) but whose language hint is malformed, the 400 error
is raised after `save_upload_to_temp` and outside the `try`/`finally` that
deletes the temp file, so the temporary file is still on disk when the
request completes — the UploadArtifact outlives the request. -/
theorem C1_language_hint_leak :
    transcribe (some (("a.mp3").data)) [.chunk [0]] (some (("eng").data))
        .crash 52428800 =
      ⟨.error .invalidInput, true, true⟩ := by
  decide

/-! ### Counting occurrences of the SRT delimiter token -/

theorem countArrow_cons (c : Char) (s : List Char) :
    countArrow (c :: s) = (if startsArrow (c :: s) then 1 else 0) + countArrow s := rfl

theorem startsArrow_cons_false {c : Char} (h : c ≠ '-') (s : List Char) :
    startsArrow (c :: s) = false := by
  match s with
  | [] => rfl
  | [x] => rfl
  | x :: y :: t => simp [startsArrow, h]

theorem startsArrow_eq_true_iff (s : List Char) :
    startsArrow s = true ↔ ∃ t, s = '-' :: '-' :: '>' :: t := by
  match s with
  | [] => simp [startsArrow]
  | [c] => simp [startsArrow]
  | [c1, c2] => simp [startsArrow]
  | c1 :: c2 :: c3 :: t =>
    simp only [startsArrow, Bool.and_eq_true, decide_eq_true_eq]
    constructor
    · rintro ⟨⟨h1, h2⟩, h3⟩
      subst h1
      subst h2
      subst h3
      exact ⟨t, rfl⟩
    · rintro ⟨t', ht⟩
      injection ht with e1 ht
      injection ht with e2 ht
      injection ht with e3 _
      exact ⟨⟨e1, e2⟩, e3⟩

theorem countArrow_cons_false {c : Char} (h : c ≠ '-') (s : List Char) :
    countArrow (c :: s) = countArrow s := by
  rw [countArrow_cons, startsArrow_cons_false h]
  simp

theorem countArrow_eq_zero_of_no_dash {s : List Char} (h : ∀ c ∈ s, c ≠ '-') :
    countArrow s = 0 := by
  induction s with
  | nil => rfl
  | cons c rest ih =>
    rw [countArrow_cons_false (h c (by simp)), ih (fun x hx => h x (by simp [hx]))]

theorem startsArrow_append_of_head (a b : List Char) (c : Char)
    (hb : ∀ x, b.head? = some x → x ≠ '-' ∧ x ≠ '>') :
    startsArrow (c :: (a ++ b)) = startsArrow (c :: a) := by
  match a with
  | x :: y :: t => rfl
  | [x] =>
    cases b with
    | nil => rfl
    | cons z bs =>
      have hz := (hb z rfl).2
      simp [startsArrow, hz]
  | [] =>
    cases b with
    | nil => rfl
    | cons z bs =>
      cases bs with
      | nil =>
        have hz := (hb z rfl).1
        simp [startsArrow, hz]
      | cons w ws =>
        have hz := (hb z rfl).1
        simp [startsArrow, hz]

theorem countArrow_append_of_head (a b : List Char)
    (hb : ∀ x, b.head? = some x → x ≠ '-' ∧ x ≠ '>') :
    countArrow (a ++ b) = countArrow a + countArrow b := by
  induction a with
  | nil => simp [countArrow]
  | cons c a' ih =>
    rw [List.cons_append, countArrow_cons, startsArrow_append_of_head a' b c hb, ih,
      countArrow_cons]
    omega

theorem ws_ne {c : Char} (h : c.isWhitespace = true) : c ≠ '-' ∧ c ≠ '>' := by
  constructor <;> intro he <;> rw [he] at h <;> exact absurd h (by decide)

theorem countArrow_append_ws (a w : List Char) (hw : ∀ c ∈ w, c.isWhitespace = true) :
    countArrow (a ++ w) = countArrow a := by
  rw [countArrow_append_of_head a w (fun x hx => ws_ne (hw x (by
        cases w with
        | nil => simp at hx
        | cons z zs =>
          rw [List.head?] at hx
          injection hx with hz
          simp [hz]))),
    countArrow_eq_zero_of_no_dash (fun c hc => (ws_ne (hw c hc)).1)]
  omega

theorem countArrow_ws_append (w a : List Char) (hw : ∀ c ∈ w, c.isWhitespace = true) :
    countArrow (w ++ a) = countArrow a := by
  induction w with
  | nil => rfl
  | cons c w' ih =>
    rw [List.cons_append,
      countArrow_cons_false (ws_ne (hw c (by simp))).1,
      ih (fun x hx => hw x (by simp [hx]))]

theorem stripTrailing_decomp (s : List Char) :
    ∃ w, s = stripTrailing s ++ w ∧ ∀ c ∈ w, c.isWhitespace = true := by
  refine ⟨(s.reverse.takeWhile Char.isWhitespace).reverse, ?_, ?_⟩
  · rw [stripTrailing]
    conv_lhs => rw [← List.reverse_reverse s,
      ← List.takeWhile_append_dropWhile Char.isWhitespace s.reverse]
    rw [List.reverse_append]
  · intro c hc
    rw [List.mem_reverse] at hc
    exact List.mem_takeWhile_imp hc

theorem countArrow_stripTrailing (s : List Char) :
    countArrow (stripTrailing s) = countArrow s := by
  obtain ⟨w, hsw, hw⟩ := stripTrailing_decomp s
  conv_rhs => rw [hsw]
  rw [countArrow_append_ws _ _ hw]

theorem countArrow_dropLeadingWs (s : List Char) :
    countArrow (dropLeadingWs s) = countArrow s := by
  conv_rhs => rw [← List.takeWhile_append_dropWhile Char.isWhitespace s]
  rw [countArrow_ws_append _ _ (fun c hc => List.mem_takeWhile_imp hc)]
  rfl

theorem countArrow_pyStrip (s : List Char) :
    countArrow (pyStrip s) = countArrow s := by
  rw [pyStrip, countArrow_stripTrailing, countArrow_dropLeadingWs]

theorem replaceArrows_cons3 (c1 c2 c3 : Char) (rest : List Char) :
    replaceArrows (c1 :: c2 :: c3 :: rest) =
      if c1 = '-' ∧ c2 = '-' ∧ c3 = '>' then '→' :: replaceArrows rest
      else c1 :: replaceArrows (c2 :: c3 :: rest) := rfl

theorem replaceArrows_head (s t : List Char) (c : Char)
    (h : replaceArrows s = c :: t) : c = '→' ∨ ∃ r, s = c :: r := by
  match s with
  | [] => exact absurd h (by simp [replaceArrows])
  | [x] =>
    rw [replaceArrows] at h
    injection h with hx _
    exact Or.inr ⟨[], by rw [hx]⟩
  | [x, y] =>
    rw [replaceArrows] at h
    injection h with hx _
    exact Or.inr ⟨[y], by rw [hx]⟩
  | c1 :: c2 :: c3 :: r =>
    rw [replaceArrows_cons3] at h
    by_cases hm : c1 = '-' ∧ c2 = '-' ∧ c3 = '>'
    · rw [if_pos hm] at h
      injection h with hx _
      exact Or.inl hx.symm
    · rw [if_neg hm] at h
      injection h with hx _
      exact Or.inr ⟨c2 :: c3 :: r, by rw [hx]⟩

theorem countArrow_replaceArrows (s : List Char) :
    countArrow (replaceArrows s) = 0 := by
  induction s using replaceArrows.induct with
  | case1 => rfl
  | case2 c => rfl
  | case3 c1 c2 => rfl
  | case4 c1 c2 c3 rest hm ih =>
    rw [replaceArrows_cons3, if_pos hm, countArrow_cons_false (by decide), ih]
  | case5 c1 c2 c3 rest hm ih =>
    rw [replaceArrows_cons3, if_neg hm, countArrow_cons]
    rw [ih]
    have hsa : startsArrow (c1 :: replaceArrows (c2 :: c3 :: rest)) = false := by
      by_contra hcon
      rw [Bool.not_eq_false] at hcon
      obtain ⟨t, ht⟩ := (startsArrow_eq_true_iff _).mp hcon
      injection ht with hc1 hX
      cases rest with
      | nil =>
        rw [replaceArrows] at hX
        injection hX with hc2 hX
        injection hX with hc3 _
        exact hm ⟨hc1, hc2, hc3⟩
      | cons r rs =>
        rw [replaceArrows_cons3] at hX
        by_cases hm2 : c2 = '-' ∧ c3 = '-' ∧ r = '>'
        · rw [if_pos hm2] at hX
          injection hX with hbad _
          exact absurd hbad (by decide)
        · rw [if_neg hm2] at hX
          injection hX with hc2 hY
          rcases replaceArrows_head _ _ _ hY with hbad | ⟨r', hr'⟩
          · exact absurd hbad (by decide)
          · injection hr' with hc3 _
            exact hm ⟨hc1, hc2, hc3⟩
    rw [hsa]
    simp

/-! ### Character classes of rendered digits and timestamps -/

theorem digit_ne {d : Nat} (h : d < 10) : digit d ≠ '-' ∧ digit d ≠ '>' := by
  interval_cases d <;> exact ⟨by decide, by decide⟩

theorem natToChars_chars (n : Nat) : ∀ c ∈ natToChars n, c ≠ '-' ∧ c ≠ '>' := by
  induction n using Nat.strong_induction_on with
  | _ n ih =>
    by_cases h10 : n < 10
    · rw [natToChars_lt10 h10]
      intro c hc
      rw [List.mem_singleton] at hc
      subst hc
      exact digit_ne h10
    · rw [natToChars_ge10 (by omega)]
      intro c hc
      rw [List.mem_append] at hc
      rcases hc with hc | hc
      · exact ih (n / 10) (Nat.div_lt_self (by omega) (by omega)) c hc
      · rw [List.mem_singleton] at hc
        subst hc
        exact digit_ne (Nat.mod_lt n (by omega))

theorem pad2_chars (n : Nat) : ∀ c ∈ pad2 n, c ≠ '-' ∧ c ≠ '>' := by
  unfold pad2
  split
  · intro c hc
    rw [List.mem_cons] at hc
    rcases hc with hc | hc
    · subst hc
      exact ⟨by decide, by decide⟩
    · exact natToChars_chars n c hc
  · exact natToChars_chars n

theorem pad3_chars (n : Nat) : ∀ c ∈ pad3 n, c ≠ '-' ∧ c ≠ '>' := by
  unfold pad3
  split
  · intro c hc
    rcases List.mem_cons.mp hc with hc | hc
    · subst hc
      exact ⟨by decide, by decide⟩
    · rcases List.mem_cons.mp hc with hc | hc
      · subst hc
        exact ⟨by decide, by decide⟩
      · exact natToChars_chars n c hc
  · split
    · intro c hc
      rcases List.mem_cons.mp hc with hc | hc
      · subst hc
        exact ⟨by decide, by decide⟩
      · exact natToChars_chars n c hc
    · exact natToChars_chars n

theorem format_timestamp_chars (q : ℚ) :
    ∀ c ∈ format_timestamp q, c ≠ '-' ∧ c ≠ '>' := by
  rw [format_timestamp]
  intro c hc
  simp only [List.mem_append, List.mem_cons] at hc
  rcases hc with ((h1 | (h2 | h3)) | (h4 | h5)) | (h6 | h7)
  · exact pad2_chars _ c h1
  · subst h2
    exact ⟨by decide, by decide⟩
  · exact pad2_chars _ c h3
  · subst h4
    exact ⟨by decide, by decide⟩
  · exact pad2_chars _ c h5
  · subst h6
    exact ⟨by decide, by decide⟩
  · exact pad3_chars _ c h7

theorem countArrow_natToChars (n : Nat) : countArrow (natToChars n) = 0 :=
  countArrow_eq_zero_of_no_dash (fun c hc => (natToChars_chars n c hc).1)

theorem countArrow_format_timestamp (q : ℚ) :
    countArrow (format_timestamp q) = 0 :=
  countArrow_eq_zero_of_no_dash (fun c hc => (format_timestamp_chars q c hc).1)

/-! ### Exactly one delimiter per subtitle block -/

theorem countArrow_dash_dash_gt (s : List Char) :
    countArrow ('-' :: '-' :: '>' :: s) = 1 + countArrow s := by
  have h2 : startsArrow ('-' :: '>' :: s) = false := by
    match s with
    | [] => rfl
    | x :: t => simp [startsArrow]
  rw [countArrow_cons, countArrow_cons, h2, countArrow_cons_false (by decide)]
  simp [startsArrow]

theorem head_safe_cons {c : Char} (hc1 : c ≠ '-') (hc2 : c ≠ '>') (u : List Char) :
    ∀ x, ((c :: u) : List Char).head? = some x → x ≠ '-' ∧ x ≠ '>' := by
  intro x hx
  rw [List.head?_cons] at hx
  injection hx with hx
  subst hx
  exact ⟨hc1, hc2⟩

theorem countArrow_segBlock (idx : Nat) (seg : Segment) :
    countArrow (segBlock idx seg) = 1 := by
  rw [segBlock,
    countArrow_append_of_head _ _ (head_safe_cons (by decide) (by decide) _),
    countArrow_natToChars,
    countArrow_cons_false (by decide),
    countArrow_append_of_head _ _ (head_safe_cons (by decide) (by decide) _),
    countArrow_format_timestamp,
    countArrow_cons_false (by decide),
    countArrow_dash_dash_gt,
    countArrow_cons_false (by decide),
    countArrow_append_of_head _ _ (head_safe_cons (by decide) (by decide) _),
    countArrow_format_timestamp,
    countArrow_cons_false (by decide),
    countArrow_append_ws _ ['\n'] (fun c hc => by
      rw [List.mem_singleton] at hc
      subst hc
      decide),
    segText, countArrow_pyStrip, countArrow_replaceArrows]

theorem joinChunks_cons2 (x y : List Char) (ys : List (List Char)) :
    joinChunks (x :: y :: ys) = x ++ '\n' :: joinChunks (y :: ys) := rfl

theorem countArrow_blocks (segs : List Segment) :
    ∀ idx, countArrow (joinChunks (blocksFrom idx segs)) = segs.length := by
  induction segs with
  | nil => intro idx; rfl
  | cons seg rest ih =>
    intro idx
    cases rest with
    | nil =>
      show countArrow (joinChunks [segBlock idx seg]) = 1
      rw [joinChunks]
      exact countArrow_segBlock idx seg
    | cons seg2 rest2 =>
      rw [blocksFrom, blocksFrom, joinChunks_cons2,
        countArrow_append_of_head _ _ (head_safe_cons (by decide) (by decide) _),
        countArrow_segBlock, countArrow_cons_false (by decide)]
      have hrec := ih (idx + 1)
      rw [blocksFrom] at hrec
      rw [hrec]
      simp
      omega

/-- C9: for every segment list of length `n`, the output of
`build_srt_from_segments` contains the substring `-->` exactly `n` times —
once in each block's timestamp line and never inside a subtitle text line,
since every occurrence inside segment text is replaced by `→` before
emission. -/
theorem C9_arrow_count :
    ∀ segments : List Segment,
      countArrow (build_srt_from_segments segments) = segments.length := by
  intro segments
  cases segments with
  | nil => rfl
  | cons seg rest =>
    rw [build_srt_from_segments, if_neg (by simp),
      countArrow_append_ws _ ['\n'] (fun c hc => by
        rw [List.mem_singleton] at hc
        subst hc
        decide),
      countArrow_pyStrip]
    exact countArrow_blocks (seg :: rest) 1

end CaptionTrans

